import Mathlib

/-!
Shallow embedding of the OpenManus execution core (app/schema.py,
app/tool/base.py, app/tool/planning.py, app/tool/bash.py,
app/agent/planning.py) together with theorems settling the frozen claims
about it.  Python dictionaries are modelled as association lists,
`Optional[...]` arguments as `Option`, raised `ToolError`s as `Except.error`,
and CPython string truthiness (`if not x:`) via explicit emptiness tests.
-/

namespace OpenManus

/-! ## String helpers

The Python embedding works on `List Char` where a structurally recursive,
kernel-reducible definition is needed (Python `str.splitlines`, `str.strip`,
substring search, slicing). -/

/-- Boolean substring-prefix test mirroring Python slice comparison. -/
def isPrefixB : List Char → List Char → Bool
  | [], _ => true
  | _ :: _, [] => false
  | p :: ps, c :: cs => p == c && isPrefixB ps cs

/-- Boolean substring occurrence test: Python `pat in s`. -/
def occursIn (pat : List Char) : List Char → Bool
  | [] => isPrefixB pat []
  | c :: rest => isPrefixB pat (c :: rest) || occursIn pat rest

/-- Everything strictly before the first occurrence of `pat`: Python
`s[: s.index(pat)]`.  When `pat` does not occur the whole list is returned
(the source only reaches this slice after observing the occurrence). -/
def takeUntilSub (pat : List Char) : List Char → List Char
  | [] => []
  | c :: rest =>
    if isPrefixB pat (c :: rest) then [] else c :: takeUntilSub pat rest

/-- Python `str.splitlines` restricted to `'\n'` separators (the only line
separator the embedded code produces): no trailing empty line. -/
def splitlinesGo (cur : List Char) : List Char → List (List Char)
  | [] => if cur.isEmpty then [] else [cur.reverse]
  | c :: rest =>
    if c == '\n' then cur.reverse :: splitlinesGo [] rest
    else splitlinesGo (c :: cur) rest

/-- Python whitespace as tested by `str.strip()` with no argument. -/
def isPyWS (c : Char) : Bool :=
  c == ' ' || c == '\t' || c == '\n' || c == '\r' || c == '\x0b' || c == '\x0c'

/-- Python `str.strip()`: drop leading and trailing whitespace. -/
def pyStrip (l : List Char) : List Char :=
  ((l.dropWhile isPyWS).reverse.dropWhile isPyWS).reverse

/-- Python `s.endswith("\n") and s[:-1]` cleanup used by the bash session. -/
def stripTrailingNL (s : String) : String :=
  if s.data.getLast? == some '\n' then String.mk s.data.dropLast else s

/-- Python truthiness of an optional string argument: `if not x:` is taken
for `None` and for the empty string. -/
def truthyStr : Option String → Bool
  | none => false
  | some s => !(s == "")

/-- Python truthiness of an optional list argument: `if not x:` is taken
for `None` and for the empty list. -/
def truthyList : Option (List String) → Bool
  | none => false
  | some l => !l.isEmpty

/-! ## app/schema.py — Message and Memory -/

/-- Embeds `schema.Function`: a function invocation carried by a tool call. -/
structure PyFunction where
  name : String
  arguments : String
deriving DecidableEq, Repr

/-- Embeds `schema.ToolCall`. -/
structure PyToolCall where
  id : String
  type : String := "function"
  function : PyFunction
deriving DecidableEq, Repr

/-- Embeds `schema.Message` (roles kept as their string values, as pydantic stores
them). -/
structure PyMessage where
  role : String
  content : Option String := none
  tool_calls : Option (List PyToolCall) := none
  name : Option String := none
  tool_call_id : Option String := none
deriving DecidableEq, Repr

/-- Embeds `schema.Memory`. -/
structure Memory where
  messages : List PyMessage := []
  max_messages : Nat := 100
deriving DecidableEq, Repr

/-- Embeds `Memory.add_message`: append, then enforce the bound with the slice
`self.messages[-self.max_messages:]`.  Note the CPython slice corner case:
`[-0:]` is the whole list, so a zero bound trims nothing. -/
def Memory.add_message (m : Memory) (message : PyMessage) : Memory :=
  let msgs := m.messages ++ [message]
  if m.max_messages < msgs.length then
    if m.max_messages == 0 then { m with messages := msgs }
    else { m with messages := msgs.drop (msgs.length - m.max_messages) }
  else { m with messages := msgs }

/-- Embeds `Memory.add_messages`: `self.messages.extend(messages)` — the source
performs no trimming on this path. -/
def Memory.add_messages (m : Memory) (messages : List PyMessage) : Memory :=
  { m with messages := m.messages ++ messages }

/-- Embeds `Memory.clear`. -/
def Memory.clear (m : Memory) : Memory :=
  { m with messages := [] }

/-- Embeds `Memory.get_recent_messages`: `self.messages[-n:]` for positive `n`. -/
def Memory.get_recent_messages (m : Memory) (n : Nat) : List PyMessage :=
  if n == 0 then m.messages
  else m.messages.drop (m.messages.length - n)

/-! ## app/tool/base.py — ToolResult -/

/-- Embeds `base.ToolResult`; the claims concern only string-valued fields, so
`output` (typed `Any` in the source) is embedded at `Option String` like
`error` and `system`. -/
structure ToolResult where
  output : Option String := none
  error : Option String := none
  system : Option String := none
deriving DecidableEq, Repr

/-- The local `combine_fields` of `ToolResult.__add__` in the
`concatenate=True` case (the only case `__add__` exercises: the
`concatenate=False` branch raising `ValueError` is never reached).  Python
truthiness: `field and other_field` and `field or other_field` treat `None`
and `""` as falsy. -/
def combine_fields (field other : Option String) : Option String :=
  if truthyStr field && truthyStr other then
    some (field.getD "" ++ other.getD "")
  else if truthyStr field then field else other

/-- Embeds `ToolResult.__add__`. -/
def ToolResult.add (a b : ToolResult) : ToolResult :=
  { output := combine_fields a.output b.output
    error := combine_fields a.error b.error
    system := combine_fields a.system b.system }

/-! ## app/tool/planning.py — PlanningTool -/

/-- A stored plan dictionary.  Step statuses are kept as raw strings, as the
source stores them, so the four-status invariant is a real property of the
operations rather than of the type. -/
structure Plan where
  plan_id : String
  title : String
  steps : List String
  step_statuses : List String
  step_notes : List String
deriving DecidableEq, Repr

/-- Mutable state of the tool: the `plans` dict (an insertion-ordered
association list, as CPython dicts are) and `_current_plan_id`. -/
structure PlanningState where
  plans : List (String × Plan) := []
  current_plan_id : Option String := none
deriving DecidableEq, Repr

/-- Dict read `d[k]` / `k in d`. -/
def dictGet : List (String × Plan) → String → Option Plan
  | [], _ => none
  | (k, v) :: rest, key => if k == key then some v else dictGet rest key

/-- Dict write `d[k] = v`: overwrite in place, else append (CPython
insertion order). -/
def dictSet : List (String × Plan) → String → Plan → List (String × Plan)
  | [], key, v => [(key, v)]
  | (k, w) :: rest, key, v =>
    if k == key then (key, v) :: rest else (k, w) :: dictSet rest key v

/-- Dict delete `del d[k]` (keys are unique in a CPython dict, so removing
the first occurrence is exact). -/
def dictDel : List (String × Plan) → String → List (String × Plan)
  | [], _ => []
  | (k, w) :: rest, key => if k == key then rest else (k, w) :: dictDel rest key

/-- Count of a given status value in a status list:
`sum(1 for status in plan["step_statuses"] if status == s)`. -/
def countStatus (statuses : List String) (s : String) : Nat :=
  (statuses.filter (fun st => st == s)).length

/-- The CPython format `f"{completed/total*100:.1f}"` modelled exactly on
the rational `completed*100/total`, rounding to tenths with ties to even
(IEEE double rounding agrees on every value this development evaluates). -/
def formatPct1 (completed total : Nat) : String :=
  let n := completed * 1000
  let q := n / total
  let r := n % total
  let tenths :=
    if 2 * r < total then q
    else if total < 2 * r then q + 1
    else if q % 2 == 0 then q else q + 1
  toString (tenths / 10) ++ "." ++ toString (tenths % 10)

/-- The per-step status marker map of `_format_plan`, with its `[ ]`
default. -/
def statusSymbol (status : String) : String :=
  if status == "not_started" then "[ ]"
  else if status == "in_progress" then "[→]"
  else if status == "completed" then "[✓]"
  else if status == "blocked" then "[!]"
  else "[ ]"

/-- The step-listing loop of `_format_plan`: one line per zipped
(step, status, notes) triple, plus a `Notes:` line for non-empty notes.
`zip` truncates at the shortest list, as in Python. -/
def formatSteps : Nat → List (String × (String × String)) → String
  | _, [] => ""
  | i, (step, status, notes) :: rest =>
    let line := toString i ++ ". " ++ statusSymbol status ++ " " ++ step ++ "\n"
    let line := if notes == "" then line else line ++ "   Notes: " ++ notes ++ "\n"
    line ++ formatSteps (i + 1) rest

/-- Embeds `PlanningTool._format_plan`. -/
def formatPlan (plan : Plan) : String :=
  let header := "Plan: " ++ plan.title ++ " (ID: " ++ plan.plan_id ++ ")\n"
  let output := header ++ String.mk (List.replicate header.length '=') ++ "\n\n"
  let total_steps := plan.steps.length
  let completed := countStatus plan.step_statuses "completed"
  let in_progress := countStatus plan.step_statuses "in_progress"
  let blocked := countStatus plan.step_statuses "blocked"
  let not_started := countStatus plan.step_statuses "not_started"
  let output := output ++ "Progress: " ++ toString completed ++ "/" ++
    toString total_steps ++ " steps completed "
  let output :=
    if 0 < total_steps then
      output ++ "(" ++ formatPct1 completed total_steps ++ "%)\n"
    else output ++ "(0%)\n"
  let output := output ++ "Status: " ++ toString completed ++ " completed, " ++
    toString in_progress ++ " in progress, " ++ toString blocked ++
    " blocked, " ++ toString not_started ++ " not started\n\n"
  let output := output ++ "Steps:\n"
  output ++ formatSteps 0 (plan.steps.zip (plan.step_statuses.zip plan.step_notes))

/-- Embeds `PlanningTool._create_plan`. -/
def createPlan (s : PlanningState) (plan_id title : Option String)
    (steps : Option (List String)) : Except String (PlanningState × String) :=
  if !truthyStr plan_id then
    .error "Parameter `plan_id` is required for command: create"
  else
    let pid := plan_id.getD ""
    if (dictGet s.plans pid).isSome then
      .error ("A plan with ID \x27" ++ pid ++
        "\x27 already exists. Use \x27update\x27 to modify existing plans.")
    else if !truthyStr title then
      .error "Parameter `title` is required for command: create"
    else if !truthyList steps then
      .error "Parameter `steps` must be a non-empty list of strings for command: create"
    else
      let stepList := steps.getD []
      let plan : Plan :=
        { plan_id := pid
          title := title.getD ""
          steps := stepList
          step_statuses := List.replicate stepList.length "not_started"
          step_notes := List.replicate stepList.length "" }
      .ok ({ plans := dictSet s.plans pid plan, current_plan_id := some pid },
        "Plan created successfully with ID: " ++ pid ++ "\n\n" ++ formatPlan plan)

/-- The per-step preservation rule of `_update_plan`: keep the old status
and notes exactly when the new step text equals the old text at the same
index.  The source indexes `old_statuses[i]`/`old_notes[i]` directly there;
that access is in range whenever the length invariant of the plan holds, and is
totalised here with the initialisation defaults. -/
def updStatusNote (oldSteps oldStatuses oldNotes : List String) (i : Nat)
    (step : String) : String × String :=
  if i < oldSteps.length && (some step == oldSteps.get? i) then
    (oldStatuses.getD i "not_started", oldNotes.getD i "")
  else ("not_started", "")

/-- The `for i, step in enumerate(steps)` loop of `_update_plan` building
`new_statuses` and `new_notes` pairwise. -/
def buildStatusNotes (oldSteps oldStatuses oldNotes : List String) :
    Nat → List String → List (String × String)
  | _, [] => []
  | i, step :: rest =>
    updStatusNote oldSteps oldStatuses oldNotes i step ::
      buildStatusNotes oldSteps oldStatuses oldNotes (i + 1) rest

/-- The two in-place mutations `_update_plan` applies to an existing plan:
replace the title when the argument is truthy, and rebuild the step lists
when a truthy steps list is supplied. -/
def updatedPlan (plan : Plan) (title : Option String)
    (steps : Option (List String)) : Plan :=
  let plan1 := if truthyStr title then { plan with title := title.getD "" }
    else plan
  if truthyList steps then
    let stepList := steps.getD []
    let pairs := buildStatusNotes plan1.steps plan1.step_statuses
      plan1.step_notes 0 stepList
    { plan1 with
        steps := stepList
        step_statuses := pairs.map Prod.fst
        step_notes := pairs.map Prod.snd }
  else plan1

/-- Embeds `PlanningTool._update_plan`. -/
def updatePlan (s : PlanningState) (plan_id title : Option String)
    (steps : Option (List String)) : Except String (PlanningState × String) :=
  if !truthyStr plan_id then
    .error "Parameter `plan_id` is required for command: update"
  else
    let pid := plan_id.getD ""
    match dictGet s.plans pid with
    | none => .error ("No plan found with ID: " ++ pid)
    | some plan =>
      .ok ({ s with plans := dictSet s.plans pid (updatedPlan plan title steps) },
        "Plan updated successfully: " ++ pid ++ "\n\n" ++
          formatPlan (updatedPlan plan title steps))

/-- The summary loop of `_list_plans` over the plans dict. -/
def listPlansOutput (cur : Option String) : List (String × Plan) → String
  | [] => ""
  | (pid, plan) :: rest =>
    let marker := if cur == some pid then " (active)" else ""
    let completed := countStatus plan.step_statuses "completed"
    let total := plan.steps.length
    "• " ++ pid ++ marker ++ ": " ++ plan.title ++ " - " ++
      toString completed ++ "/" ++ toString total ++ " steps completed\n" ++
      listPlansOutput cur rest

/-- Embeds `PlanningTool._list_plans`. -/
def listPlans (s : PlanningState) : Except String (PlanningState × String) :=
  if s.plans.isEmpty then
    .ok (s, "No plans available. Create a plan with the \x27create\x27 command.")
  else
    .ok (s, "Available plans:\n" ++ listPlansOutput s.current_plan_id s.plans)

/-- Embeds `PlanningTool._get_plan`. -/
def getPlan (s : PlanningState) (plan_id : Option String) :
    Except String (PlanningState × String) :=
  let pid? := if truthyStr plan_id then plan_id
    else if truthyStr s.current_plan_id then s.current_plan_id else none
  match pid? with
  | none => .error "No active plan. Please specify a plan_id or set an active plan."
  | some pid =>
    match dictGet s.plans pid with
    | none => .error ("No plan found with ID: " ++ pid)
    | some plan => .ok (s, formatPlan plan)

/-- Embeds `PlanningTool._set_active_plan`. -/
def setActivePlan (s : PlanningState) (plan_id : Option String) :
    Except String (PlanningState × String) :=
  if !truthyStr plan_id then
    .error "Parameter `plan_id` is required for command: set_active"
  else
    let pid := plan_id.getD ""
    match dictGet s.plans pid with
    | none => .error ("No plan found with ID: " ++ pid)
    | some plan =>
      .ok ({ s with current_plan_id := some pid },
        "Plan \x27" ++ pid ++ "\x27 is now the active plan.\n\n" ++ formatPlan plan)

/-- Embeds `PlanningTool._mark_step`.  The falsy-`plan_id` fallback to the active
plan, the existence, index, and status validations all precede every
mutation, so a raised `ToolError` leaves the state untouched. -/
def markStep (s : PlanningState) (plan_id : Option String)
    (step_index : Option Int) (step_status step_notes : Option String) :
    Except String (PlanningState × String) :=
  let pid? := if truthyStr plan_id then plan_id
    else if truthyStr s.current_plan_id then s.current_plan_id else none
  match pid? with
  | none => .error "No active plan. Please specify a plan_id or set an active plan."
  | some pid =>
    match dictGet s.plans pid with
    | none => .error ("No plan found with ID: " ++ pid)
    | some plan =>
      match step_index with
      | none => .error "Parameter `step_index` is required for command: mark_step"
      | some idx =>
        if idx < 0 || (plan.steps.length : Int) ≤ idx then
          .error ("Invalid step_index: " ++ toString idx ++
            ". Valid indices range from 0 to " ++
            toString ((plan.steps.length : Int) - 1) ++ ".")
        else if truthyStr step_status &&
            !(["not_started", "in_progress", "completed", "blocked"].contains
              (step_status.getD "")) then
          .error ("Invalid step_status: " ++ step_status.getD "" ++
            ". Valid statuses are: not_started, in_progress, completed, blocked")
        else
          let plan :=
            if truthyStr step_status then
              { plan with step_statuses :=
                  plan.step_statuses.set idx.toNat (step_status.getD "") }
            else plan
          let plan :=
            if truthyStr step_notes then
              { plan with step_notes :=
                  plan.step_notes.set idx.toNat (step_notes.getD "") }
            else plan
          .ok ({ s with plans := dictSet s.plans pid plan },
            "Step " ++ toString idx ++ " updated in plan \x27" ++ pid ++
              "\x27.\n\n" ++ formatPlan plan)

/-- Embeds `PlanningTool._delete_plan`. -/
def deletePlan (s : PlanningState) (plan_id : Option String) :
    Except String (PlanningState × String) :=
  if !truthyStr plan_id then
    .error "Parameter `plan_id` is required for command: delete"
  else
    let pid := plan_id.getD ""
    match dictGet s.plans pid with
    | none => .error ("No plan found with ID: " ++ pid)
    | some _ =>
      let plans := dictDel s.plans pid
      let cur := if s.current_plan_id == some pid then none else s.current_plan_id
      .ok ({ plans := plans, current_plan_id := cur },
        "Plan \x27" ++ pid ++ "\x27 has been deleted.")

/-- The command alternatives of `PlanningTool.execute`. -/
inductive PCommand where
  | create (plan_id title : Option String) (steps : Option (List String))
  | update (plan_id title : Option String) (steps : Option (List String))
  | list
  | get (plan_id : Option String)
  | set_active (plan_id : Option String)
  | mark_step (plan_id : Option String) (step_index : Option Int)
      (step_status step_notes : Option String)
  | delete (plan_id : Option String)

/-- Embeds `PlanningTool.execute`: dispatch on the command. -/
def executePlanning (s : PlanningState) : PCommand →
    Except String (PlanningState × String)
  | .create plan_id title steps => createPlan s plan_id title steps
  | .update plan_id title steps => updatePlan s plan_id title steps
  | .list => listPlans s
  | .get plan_id => getPlan s plan_id
  | .set_active plan_id => setActivePlan s plan_id
  | .mark_step plan_id step_index step_status step_notes =>
      markStep s plan_id step_index step_status step_notes
  | .delete plan_id => deletePlan s plan_id

/-- The state after a command: a raised `ToolError` leaves the stored plans
untouched (every validation in the source precedes every mutation). -/
def stateAfter (s : PlanningState) (c : PCommand) : PlanningState :=
  match executePlanning s c with
  | .ok (s2, _) => s2
  | .error _ => s

/-! ## app/tool/bash.py — _BashSession and Bash

The asynchronous poll loop of `_BashSession.run` is embedded as a state
transition driven by an explicit event describing what the spawned process
did during the call: either the sentinel appeared in the accumulated stdout
buffer within the timeout, or the timeout elapsed first.  The bytes the
process contributed to each OS pipe buffer during the call are the data
of the event. -/

/-- Embeds `_BashSession._sentinel`. -/
def sentinel : String := "<<exit>>"

/-- Embeds `_BashSession` state: `_started`, `_timed_out`, the process result code,
the writes made to the process stdin, and the two accumulated (not yet
cleared) pipe buffers `stdout._buffer` / `stderr._buffer`. -/
structure BashSession where
  started : Bool := false
  timed_out : Bool := false
  returncode : Option Int := none
  stdinWrites : List String := []
  stdoutBuf : String := ""
  stderrBuf : String := ""
deriving DecidableEq, Repr

/-- What the spawned process did during one `run` call: `completes` when the
sentinel was detected within the timeout after the process appended the given
data to the stdout/stderr buffers; `timesOut` when the timeout elapsed first. -/
inductive RunEvent where
  | completes (newStdout newStderr : String)
  | timesOut (newStdout newStderr : String)
deriving DecidableEq, Repr

/-- The possible results of `_BashSession.run`: a raised `ToolError`, the
`ToolResult(system="tool must be restarted", ...)` returned for an exited
process, or a `CLIResult`. -/
inductive BashRunResult where
  | toolError (msg : String)
  | mustRestart (returncode : Int)
  | systemResult (system : String)
  | cli (output error : String)
deriving DecidableEq, Repr

/-- The `ToolError` message of both the sticky timed-out check and a fresh
timeout (the source formats `self._timeout = 120.0` into it). -/
def timedOutMsg : String :=
  "timed out: bash has not returned in 120.0 seconds and must be restarted"

/-- Stdout-buffer slice returned on sentinel detection:
`output[: output.index(self._sentinel)]`, then the trailing-newline strip. -/
def sentinelOutput (buf : String) : String :=
  stripTrailingNL (String.mk (takeUntilSub sentinel.data buf.data))

/-- Embeds `_BashSession.run`.  Guards run in source order: not-started, process
exited, sticky timed-out flag — each before anything is written to stdin.
On the success path the command plus the sentinel-echo suffix is written,
the buffers accumulate the data of the event, the output before the first
sentinel occurrence is returned (trailing newline stripped, as is the
stderr content), and both buffers are cleared.  On timeout the sticky flag
is set and the buffers are left uncleared. -/
def bashRun (s : BashSession) (command : String) (ev : RunEvent) :
    BashSession × BashRunResult :=
  if s.started == false then (s, .toolError "Session has not started.")
  else
    match s.returncode with
    | some rc => (s, .mustRestart rc)
    | none =>
      if s.timed_out then (s, .toolError timedOutMsg)
      else
        let s1 := { s with stdinWrites :=
          s.stdinWrites ++ [command ++ ("; echo \x27" ++ sentinel ++ "\x27\n")] }
        match ev with
        | .timesOut o e =>
          ({ s1 with
              timed_out := true
              stdoutBuf := s1.stdoutBuf ++ o
              stderrBuf := s1.stderrBuf ++ e }, .toolError timedOutMsg)
        | .completes o e =>
          let buf := s1.stdoutBuf ++ o
          let errbuf := s1.stderrBuf ++ e
          ({ s1 with stdoutBuf := "", stderrBuf := "" },
            .cli (sentinelOutput buf) (stripTrailingNL errbuf))

/-- Iterated `run` calls on one session. -/
def bashRunSeq (s : BashSession) : List (String × RunEvent) →
    BashSession × List BashRunResult
  | [] => (s, [])
  | (c, ev) :: rest =>
    let (s1, r) := bashRun s c ev
    let (s2, rs) := bashRunSeq s1 rest
    (s2, r :: rs)

/-- A session as `start()` leaves it: a freshly spawned process with empty
pipe buffers, nothing written, no timeout. -/
def freshSession : BashSession :=
  { started := true }

/-- Embeds `Bash` tool state: the optional `_session`. -/
structure BashTool where
  session : Option BashSession := none
deriving DecidableEq, Repr

/-- Embeds `Bash.execute`.  `restart=True` stops the old session and replaces it
wholesale with a newly started one; otherwise a session is created on first
use and `run` is delegated to it. -/
def bashExecute (t : BashTool) (command : Option String) (restart : Bool)
    (ev : RunEvent) : BashTool × BashRunResult :=
  if restart then
    ({ session := some freshSession }, .systemResult "tool has been restarted.")
  else
    let sess := t.session.getD freshSession
    match command with
    | some c =>
      let (s1, r) := bashRun sess c ev
      ({ session := some s1 }, r)
    | none => ({ session := some sess }, .toolError "no command provided.")

/-! ## app/agent/planning.py — PlanningAgent._get_current_step_index

The plan-text scan is pure string processing and is embedded as such: split
the rendered plan into lines, find the line whose stripped text is exactly
`"Steps:"`, then return the 0-based offset (`enumerate(..., start=0)`) of
the first subsequent line containing `"[ ]"` or `"[→]"`. -/

/-- The `line.strip() == "Steps:"` search over enumerated lines. -/
def findStepsLine (i : Nat) : List (List Char) → Option Nat
  | [] => none
  | l :: rest =>
    if pyStrip l == "Steps:".data then some i else findStepsLine (i + 1) rest

/-- The `"[ ]" in line or "[→]" in line` search over the lines after the
header, counting from 0. -/
def findMarkerLine (i : Nat) : List (List Char) → Option Nat
  | [] => none
  | l :: rest =>
    if occursIn "[ ]".data l || occursIn "[→]".data l then some i
    else findMarkerLine (i + 1) rest

/-- The text analysis of `PlanningAgent._get_current_step_index`: the value
it returns as `current_step_index` (and passes to `mark_step` as
`step_index`) for a given rendered plan text. -/
def getCurrentStepIndexText (plan : String) : Option Nat :=
  let lines := splitlinesGo [] plan.data
  match findStepsLine 0 lines with
  | none => none
  | some k => findMarkerLine 0 (lines.drop (k + 1))

/-! ## Shared concrete scenario states -/

/-- Returns `true` exactly when the command succeeds (no `ToolError`). -/
def execOk (s : PlanningState) (c : PCommand) : Bool :=
  match executePlanning s c with
  | .ok _ => true
  | .error _ => false

/-- State after `create(plan_id="p1", title="Test", steps=["a","b"])`. -/
def demoCreated : PlanningState :=
  stateAfter {} (.create (some "p1") (some "Test") (some ["a", "b"]))

/-- State `demoCreated` after `mark_step(0, completed)` (no notes). -/
def demoMarked : PlanningState :=
  stateAfter demoCreated (.mark_step (some "p1") (some 0) (some "completed") none)

/-- State `demoCreated` after `mark_step(0, completed, notes="n")`: step 0 carries
a rendered `Notes:` line, step 1 is the first not-started step. -/
def demoNoted : PlanningState :=
  stateAfter demoCreated
    (.mark_step (some "p1") (some 0) (some "completed") (some "n"))

/-- Rendering, by the tool itself, of a stored plan (`get` command output); the
empty string when the command fails. -/
def renderedPlan (s : PlanningState) (pid : String) : String :=
  match getPlan s (some pid) with
  | .ok (_, out) => out
  | .error _ => ""

/-! ## Claims -/

/-- C1: the claim says every append operation (single or batch) keeps the
store at `max_messages` and retains the most recent messages; the function
`add_messages` of the source merely extends the list with no trimming, so a batch append
can exceed the bound.  Evaluation of the embedded code at the failing
input `Memory(max_messages=1)`, `add_messages([user "a", user "b"])`. -/
theorem memory_add_messages_exceeds_bound :
    (Memory.add_messages { messages := [], max_messages := 1 }
      [{ role := "user", content := some "a" },
       { role := "user", content := some "b" }]).messages.length = 2 ∧
    ¬((Memory.add_messages { messages := [], max_messages := 1 }
      [{ role := "user", content := some "a" },
       { role := "user", content := some "b" }]).messages.length ≤ 1) := by
  constructor
  · rfl
  · decide

/-- C6: round-trip through the tool — creating a plan with steps
`["a","b"]`, marking step 0 completed, then rendering with the `get`
command yields text containing the progress fragment
`"1/2 steps completed (50.0%)"` and the step line `"0. [✓] a"`. -/
theorem plan_create_mark_render_round_trip :
    (occursIn "1/2 steps completed (50.0%)".data
        (renderedPlan demoMarked "p1").data = true) ∧
    (occursIn "0. [✓] a\n".data (renderedPlan demoMarked "p1").data = true) := by
  constructor
  · rfl
  · rfl

/-- C3: the claim (and its own docstring) says the scan yields
the index of the first not-started/in-progress step; the source returns the
0-based offset of the matching line among the lines after `"Steps:"`, which
diverges as soon as an earlier step carries a `Notes:` line.  On the
rendered plan with step 0 completed-with-notes and step 1 not started the
scan returns 2 (and `mark_step` at 2 then fails as out of range) although
the first not-started step has index 1. -/
theorem planning_scan_returns_line_offset_not_step_index :
    getCurrentStepIndexText (renderedPlan demoNoted "p1") = some 2 ∧
    (dictGet demoNoted.plans "p1").map Plan.step_statuses
      = some ["completed", "not_started"] ∧
    execOk demoNoted (.mark_step (some "p1") (some 2) (some "in_progress") none)
      = false ∧
    (some 2 : Option Nat) ≠ some 1 := by
  refine ⟨rfl, rfl, rfl, by decide⟩

/-- C7 counterexample: the claim says `run` returns as output everything
accumulated before the first sentinel occurrence; the source additionally
strips one trailing newline.  On a fresh session running `echo hi` whose
process wrote `"hi\n<<exit>>\n"`, the text before the sentinel is
`"hi\n"` but the returned output is `"hi"`. -/
theorem bash_run_strips_newline_counterexample :
    (bashRun freshSession "echo hi" (.completes "hi\n<<exit>>\n" "")).2
      = .cli "hi" "" ∧
    String.mk (takeUntilSub sentinel.data ("hi\n<<exit>>\n" : String).data)
      = "hi\n" ∧
    ("hi" : String) ≠ "hi\n" := by
  refine ⟨rfl, rfl, by decide⟩

/-- C9 counterexample: the claim says that when exactly one side sets a
field the merge yields that single defined value; with `a.output = ""`
(set, but falsy in Python) and `b.output = None`, `__add__` yields `None`,
not `""`. -/
theorem tool_result_add_drops_empty_string_counterexample :
    (ToolResult.add { output := some "" } {}).output = none ∧
    (some "" : Option String) ≠ none := by
  refine ⟨rfl, by decide⟩

/-- The merge rule `ToolResult.__add__` actually implements, stated
field-wise from the words of the amended claim: an empty string counts as unset;
two non-empty fields concatenate; otherwise the left field wins when
non-empty, else the right field results as-is. -/
def mergeFieldSpec : Option String → Option String → Option String
  | none, o => o
  | some x, none => if x = "" then none else some x
  | some x, some y =>
    if x = "" then some y
    else if y = "" then some x
    else some (x ++ y)

/-- Lemma: `combine_fields` agrees with the amended field-merge rule. -/
theorem combine_fields_eq_mergeFieldSpec (f o : Option String) :
    combine_fields f o = mergeFieldSpec f o := by
  cases f with
  | none => cases o <;> simp [combine_fields, mergeFieldSpec, truthyStr]
  | some x =>
    cases o with
    | none =>
      by_cases hx : x = "" <;>
        simp [combine_fields, mergeFieldSpec, truthyStr, hx]
    | some y =>
      by_cases hx : x = "" <;> by_cases hy : y = "" <;>
        simp [combine_fields, mergeFieldSpec, truthyStr, hx, hy]

/-- C9 amended: merging combines `output`, `error` and `system` field-wise
by Python truthiness — both fields non-empty strings concatenate; an unset
or empty field yields the field of the other side (with the left side preferred
only when it is a non-empty string). -/
theorem tool_result_add_merges_by_truthiness (a b : ToolResult) :
    ToolResult.add a b =
      { output := mergeFieldSpec a.output b.output
        error := mergeFieldSpec a.error b.error
        system := mergeFieldSpec a.system b.system } := by
  simp [ToolResult.add, combine_fields_eq_mergeFieldSpec]

/-- C7 amended: on a live session, `run(c)` writes to the process input
exactly `c` followed by the sentinel-echo suffix and a newline; upon detecting
the sentinel in the accumulated stdout it returns as output everything
accumulated before the first sentinel occurrence with one trailing newline
removed when present, returns the accumulated stderr content stripped the
same way, and clears both buffers for the next command. -/
theorem bash_run_sentinel_protocol (s : BashSession) (c o e : String)
    (hs : s.started = true) (hrc : s.returncode = none)
    (ht : s.timed_out = false)
    (hocc : occursIn sentinel.data (s.stdoutBuf ++ o).data = true) :
    (bashRun s c (.completes o e)).1.stdinWrites
      = s.stdinWrites ++ [c ++ "; echo \x27<<exit>>\x27\n"] ∧
    (bashRun s c (.completes o e)).2
      = .cli (sentinelOutput (s.stdoutBuf ++ o))
          (stripTrailingNL (s.stderrBuf ++ e)) ∧
    (bashRun s c (.completes o e)).1.stdoutBuf = "" ∧
    (bashRun s c (.completes o e)).1.stderrBuf = "" := by
  have hsuffix : ("; echo \x27" ++ sentinel ++ "\x27\n" : String)
      = "; echo \x27<<exit>>\x27\n" := rfl
  simp [bashRun, hs, hrc, ht, hsuffix]

/-- Closed witness for the amended C7 on a fresh session. -/
theorem bash_run_sentinel_protocol_witness :
    (bashRun freshSession "echo hi" (.completes "hi\n<<exit>>\n" "err\n")).1.stdinWrites
      = [] ++ ["echo hi" ++ "; echo \x27<<exit>>\x27\n"] ∧
    (bashRun freshSession "echo hi" (.completes "hi\n<<exit>>\n" "err\n")).2
      = .cli (sentinelOutput ("" ++ "hi\n<<exit>>\n"))
          (stripTrailingNL ("" ++ "err\n")) ∧
    (bashRun freshSession "echo hi" (.completes "hi\n<<exit>>\n" "err\n")).1.stdoutBuf = "" ∧
    (bashRun freshSession "echo hi" (.completes "hi\n<<exit>>\n" "err\n")).1.stderrBuf = "" :=
  bash_run_sentinel_protocol freshSession "echo hi" "hi\n<<exit>>\n" "err\n"
    rfl rfl rfl rfl

/-- Any sequence of `run` calls on a live session whose sticky timed-out
flag is set fails fast with the must-restart `ToolError` and never changes
the session. -/
theorem bashRunSeq_timed_out (s : BashSession) (hs : s.started = true)
    (hrc : s.returncode = none) (ht : s.timed_out = true) :
    ∀ l : List (String × RunEvent),
      (bashRunSeq s l).1 = s ∧
      ∀ r ∈ (bashRunSeq s l).2, r = .toolError timedOutMsg := by
  intro l
  induction l with
  | nil => simp [bashRunSeq]
  | cons hd tl ih =>
    have hrun : bashRun s hd.1 hd.2 = (s, .toolError timedOutMsg) := by
      simp [bashRun, hs, hrc, ht]
    simp only [bashRunSeq, hrun]
    refine ⟨ih.1, ?_⟩
    intro r hr
    simp only [List.mem_cons] at hr
    rcases hr with h | h
    · exact h
    · exact ih.2 r h

/-- C2: a `run` that exceeds the timeout sets the sticky
timed-out flag and raises the must-restart error; every subsequent `run`
on that session fails fast with the same error and leaves the session
unchanged; a restart replaces the session wholesale with a freshly started
one whose buffers are empty, so the first `run` after restart returns
output computed from the data of the new process alone. -/
theorem bash_timeout_sticky_until_restart (s : BashSession) (c o e : String)
    (rest : List (String × RunEvent)) (t : BashTool) (c2 o2 e2 : String)
    (hs : s.started = true) (hrc : s.returncode = none)
    (ht : s.timed_out = false) :
    (bashRun s c (.timesOut o e)).1.timed_out = true ∧
    (bashRun s c (.timesOut o e)).2 = .toolError timedOutMsg ∧
    (bashRunSeq (bashRun s c (.timesOut o e)).1 rest).1
      = (bashRun s c (.timesOut o e)).1 ∧
    (∀ r ∈ (bashRunSeq (bashRun s c (.timesOut o e)).1 rest).2,
      r = .toolError timedOutMsg) ∧
    (bashExecute t none true (.completes o2 e2)).1
      = { session := some freshSession } ∧
    (bashExecute { session := some freshSession } (some c2) false
        (.completes o2 e2)).2
      = .cli (sentinelOutput o2) (stripTrailingNL e2) := by
  have h1 : (bashRun s c (.timesOut o e)).1.started = true := by
    simp [bashRun, hs, hrc, ht]
  have h2 : (bashRun s c (.timesOut o e)).1.returncode = none := by
    simp [bashRun, hs, hrc, ht]
  have h3 : (bashRun s c (.timesOut o e)).1.timed_out = true := by
    simp [bashRun, hs, hrc, ht]
  have hafter := bashRunSeq_timed_out (bashRun s c (.timesOut o e)).1 h1 h2 h3 rest
  refine ⟨h3, ?_, hafter.1, hafter.2, ?_, ?_⟩
  · simp [bashRun, hs, hrc, ht]
  · simp [bashExecute]
  · simp [bashExecute, bashRun, freshSession, sentinelOutput]

/-- Closed witness for C2: a concrete timed-out scenario followed by two
rejected runs, a restart, and a clean first run on the new session. -/
theorem bash_timeout_sticky_until_restart_witness :
    (bashRun freshSession "sleep 999" (.timesOut "partial" "")).1.timed_out = true ∧
    (bashRun freshSession "sleep 999" (.timesOut "partial" "")).2
      = .toolError timedOutMsg ∧
    (bashRunSeq (bashRun freshSession "sleep 999" (.timesOut "partial" "")).1
        [("ls", .completes "x\n<<exit>>\n" ""), ("pwd", .timesOut "" "")]).1
      = (bashRun freshSession "sleep 999" (.timesOut "partial" "")).1 ∧
    (∀ r ∈ (bashRunSeq (bashRun freshSession "sleep 999" (.timesOut "partial" "")).1
        [("ls", .completes "x\n<<exit>>\n" ""), ("pwd", .timesOut "" "")]).2,
      r = .toolError timedOutMsg) ∧
    (bashExecute { session := some (bashRun freshSession "sleep 999"
        (.timesOut "partial" "")).1 } none true (.completes "hi\n<<exit>>\n" "")).1
      = { session := some freshSession } ∧
    (bashExecute { session := some freshSession } (some "echo hi") false
        (.completes "hi\n<<exit>>\n" "")).2
      = .cli (sentinelOutput "hi\n<<exit>>\n") (stripTrailingNL "") :=
  bash_timeout_sticky_until_restart freshSession "sleep 999" "partial" ""
    [("ls", .completes "x\n<<exit>>\n" ""), ("pwd", .timesOut "" "")]
    { session := some (bashRun freshSession "sleep 999" (.timesOut "partial" "")).1 }
    "echo hi" "hi\n<<exit>>\n" "" rfl rfl rfl

/-! ## Dictionary lemmas -/

theorem dictGet_dictSet (d : List (String × Plan)) (k q : String) (v : Plan) :
    dictGet (dictSet d k v) q = if q = k then some v else dictGet d q := by
  induction d with
  | nil =>
    simp only [dictSet, dictGet, beq_iff_eq]
    split_ifs <;> simp_all
  | cons hd tl ih =>
    obtain ⟨k0, v0⟩ := hd
    simp only [dictSet, beq_iff_eq]
    by_cases h0 : k0 = k
    · subst h0
      simp only [if_pos rfl, dictGet, beq_iff_eq]
      clear ih
      split_ifs <;> simp_all
    · simp only [if_neg h0, dictGet, beq_iff_eq, ih]
      clear ih
      split_ifs <;> simp_all

theorem dictGet_mem {d : List (String × Plan)} {q : String} {p : Plan}
    (h : dictGet d q = some p) : (q, p) ∈ d := by
  induction d with
  | nil => simp [dictGet] at h
  | cons hd tl ih =>
    obtain ⟨k0, v0⟩ := hd
    by_cases h0 : k0 = q
    · subst h0
      simp [dictGet] at h
      simp [h]
    · simp [dictGet, h0] at h
      simp [ih h]

theorem mem_dictSet {d : List (String × Plan)} {k : String} {v : Plan}
    {x : String × Plan} (h : x ∈ dictSet d k v) : x = (k, v) ∨ x ∈ d := by
  induction d with
  | nil => simpa [dictSet] using h
  | cons hd tl ih =>
    obtain ⟨k0, v0⟩ := hd
    by_cases h0 : k0 = k
    · subst h0
      simp [dictSet] at h
      rcases h with h | h
      · exact .inl h
      · exact .inr (List.mem_cons_of_mem _ h)
    · simp [dictSet, h0] at h
      rcases h with h | h
      · exact .inr (by simp [h])
      · rcases ih h with h1 | h1
        · exact .inl h1
        · exact .inr (List.mem_cons_of_mem _ h1)

theorem mem_dictDel {d : List (String × Plan)} {k : String}
    {x : String × Plan} (h : x ∈ dictDel d k) : x ∈ d := by
  induction d with
  | nil => simpa [dictDel] using h
  | cons hd tl ih =>
    obtain ⟨k0, v0⟩ := hd
    by_cases h0 : k0 = k
    · subst h0
      simp [dictDel] at h
      exact List.mem_cons_of_mem _ h
    · simp [dictDel, h0] at h
      rcases h with h | h
      · simp [h]
      · exact List.mem_cons_of_mem _ (ih h)

theorem dictGet_not_mem {d : List (String × Plan)} {k : String}
    (h : k ∉ d.map Prod.fst) : dictGet d k = none := by
  induction d with
  | nil => simp [dictGet]
  | cons hd tl ih =>
    obtain ⟨k0, v0⟩ := hd
    simp only [List.map_cons, List.mem_cons] at h
    push_neg at h
    simp [dictGet, Ne.symm h.1, ih h.2]

theorem dictGet_dictDel_self {d : List (String × Plan)} {k : String}
    (hnodup : (d.map Prod.fst).Nodup) : dictGet (dictDel d k) k = none := by
  induction d with
  | nil => simp [dictDel, dictGet]
  | cons hd tl ih =>
    obtain ⟨k0, v0⟩ := hd
    simp only [List.map_cons, List.nodup_cons] at hnodup
    by_cases h0 : k0 = k
    · subst h0
      simp only [dictDel, beq_self_eq_true, if_pos rfl]
      exact dictGet_not_mem hnodup.1
    · simp [dictDel, h0, dictGet, ih hnodup.2]

theorem dictGet_dictDel_other {d : List (String × Plan)} {k q : String}
    (h : q ≠ k) : dictGet (dictDel d k) q = dictGet d q := by
  induction d with
  | nil => simp [dictDel]
  | cons hd tl ih =>
    obtain ⟨k0, v0⟩ := hd
    by_cases h0 : k0 = k
    · subst h0
      have : (k0 == q) = false := by simp; exact fun h2 => h h2.symm
      simp [dictDel, dictGet, this]
    · simp [dictDel, dictGet, h0, ih]

/-! ## C4: out-of-range mark_step -/

/-- C4: for every stored plan and every integer `step_index` outside
`[0, len(steps))`, the `mark_step` command raises a `ToolError` and the
tool state — including the steps, statuses and notes of the plan — is exactly
what it was before. -/
theorem mark_step_out_of_range_fails (s : PlanningState) (pid : String)
    (plan : Plan) (idx : Int) (stt nts : Option String)
    (hpid : pid ≠ "") (hplan : dictGet s.plans pid = some plan)
    (hidx : idx < 0 ∨ (plan.steps.length : Int) ≤ idx) :
    execOk s (.mark_step (some pid) (some idx) stt nts) = false ∧
    stateAfter s (.mark_step (some pid) (some idx) stt nts) = s := by
  have hb : (decide (idx < 0) || decide ((plan.steps.length : Int) ≤ idx))
      = true := by
    rcases hidx with h | h <;> simp [h]
  have herr : executePlanning s (.mark_step (some pid) (some idx) stt nts)
      = .error ("Invalid step_index: " ++ toString idx ++
        ". Valid indices range from 0 to " ++
        toString ((plan.steps.length : Int) - 1) ++ ".") := by
    simp [executePlanning, markStep, truthyStr, hpid, hplan, hb]
  simp [execOk, stateAfter, herr]

/-- Closed witness for C4 at a concrete plan and index 5. -/
theorem mark_step_out_of_range_fails_witness :
    execOk demoCreated (.mark_step (some "p1") (some 5) (some "completed") none)
      = false ∧
    stateAfter demoCreated
      (.mark_step (some "p1") (some 5) (some "completed") none)
      = demoCreated :=
  mark_step_out_of_range_fails demoCreated "p1"
    { plan_id := "p1", title := "Test", steps := ["a", "b"]
      step_statuses := ["not_started", "not_started"], step_notes := ["", ""] }
    5 (some "completed") none (by decide) (by rfl) (by decide)

/-! ## C5: the planning-state invariant -/

/-- The four legal step statuses. -/
def isLegalStatus (st : String) : Prop :=
  st = "not_started" ∨ st = "in_progress" ∨ st = "completed" ∨ st = "blocked"

/-- The parallel-list invariant of a stored plan. -/
def validPlan (p : Plan) : Prop :=
  p.step_statuses.length = p.steps.length ∧
  p.step_notes.length = p.steps.length ∧
  ∀ st ∈ p.step_statuses, isLegalStatus st

/-- The tool-state invariant: every stored plan is valid. -/
def StateInv (s : PlanningState) : Prop :=
  ∀ pr ∈ s.plans, validPlan pr.2

theorem buildStatusNotes_length (os ost ont : List String) (i : Nat)
    (l : List String) : (buildStatusNotes os ost ont i l).length = l.length := by
  induction l generalizing i with
  | nil => rfl
  | cons hd tl ih => simp [buildStatusNotes, ih]

theorem updStatusNote_fst (os ost ont : List String) (i : Nat) (step : String) :
    (updStatusNote os ost ont i step).1 ∈ ost ∨
    (updStatusNote os ost ont i step).1 = "not_started" := by
  unfold updStatusNote
  split
  · cases hg : ost[i]? with
    | none => simp [List.getD, List.get?_eq_getElem?, hg]
    | some v =>
      left
      simp only [List.getD, List.get?_eq_getElem?, hg, Option.getD_some]
      exact List.getElem?_mem hg
  · simp

theorem buildStatusNotes_fst_mem (os ost ont : List String) (i : Nat)
    (l : List String) :
    ∀ x ∈ (buildStatusNotes os ost ont i l).map Prod.fst,
      x ∈ ost ∨ x = "not_started" := by
  induction l generalizing i with
  | nil => simp [buildStatusNotes]
  | cons hd tl ih =>
    intro x hx
    simp only [buildStatusNotes, List.map_cons, List.mem_cons] at hx
    rcases hx with hx | hx
    · rw [hx]
      exact updStatusNote_fst os ost ont i hd
    · exact ih (i + 1) x hx

theorem createPlan_ok_inv {s s2 : PlanningState} {pid title : Option String}
    {steps : Option (List String)} {out : String} (h : StateInv s)
    (hok : createPlan s pid title steps = .ok (s2, out)) : StateInv s2 := by
  simp only [createPlan] at hok
  split at hok
  · exact Except.noConfusion hok
  · split at hok
    · exact Except.noConfusion hok
    · split at hok
      · exact Except.noConfusion hok
      · split at hok
        · exact Except.noConfusion hok
        · cases hok
          intro pr hpr
          rcases mem_dictSet hpr with rfl | hm
          · refine ⟨by simp, by simp, ?_⟩
            intro st hst
            rw [List.eq_of_mem_replicate hst]
            exact .inl rfl
          · exact h pr hm

theorem validPlan_updatedPlan {plan : Plan} (hv : validPlan plan)
    (title : Option String) (steps : Option (List String)) :
    validPlan (updatedPlan plan title steps) := by
  have hv1 : validPlan (if truthyStr title
      then { plan with title := title.getD "" } else plan) := by
    unfold validPlan
    split <;> exact hv
  simp only [updatedPlan]
  split
  · refine ⟨?_, ?_, ?_⟩
    · simp [buildStatusNotes_length]
    · simp [buildStatusNotes_length]
    · intro st hst
      rcases buildStatusNotes_fst_mem _ _ _ 0 _ st hst with hmem | hns
      · exact hv1.2.2 st hmem
      · rw [hns]; exact .inl rfl
  · exact hv1

theorem updatePlan_ok_inv {s s2 : PlanningState} {pid title : Option String}
    {steps : Option (List String)} {out : String} (h : StateInv s)
    (hok : updatePlan s pid title steps = .ok (s2, out)) : StateInv s2 := by
  simp only [updatePlan] at hok
  split at hok
  · exact Except.noConfusion hok
  · split at hok
    · exact Except.noConfusion hok
    · rename_i plan hplan
      cases hok
      intro pr hpr
      rcases mem_dictSet hpr with rfl | hm
      · exact validPlan_updatedPlan (h _ (dictGet_mem hplan)) title steps
      · exact h pr hm

theorem markStep_ok_inv {s s2 : PlanningState} {pid : Option String}
    {idx : Option Int} {stt nts : Option String} {out : String}
    (h : StateInv s)
    (hok : markStep s pid idx stt nts = .ok (s2, out)) : StateInv s2 := by
  simp only [markStep] at hok
  split at hok
  · exact Except.noConfusion hok
  · split at hok
    · exact Except.noConfusion hok
    · rename_i plan hplan
      split at hok
      · exact Except.noConfusion hok
      · split at hok
        · exact Except.noConfusion hok
        · split at hok
          · exact Except.noConfusion hok
          · rename_i hrange hstatus
            rename Plan => plan2
            rename ℤ => idx2
            rename (dictGet _ _ = some _) => hget
            have hv : validPlan plan2 := h _ (dictGet_mem hget)
            have hlegal : truthyStr stt = true → isLegalStatus (stt.getD "") := by
              intro htr
              cases hb : (["not_started", "in_progress", "completed",
                  "blocked"].contains (stt.getD "")) with
              | false => exact absurd (by rw [htr, hb]; rfl) hstatus
              | true =>
                have hmem := hb
                simp at hmem
                rcases hmem with h1 | h1 | h1 | h1 <;> simp [isLegalStatus, h1]
            cases hok
            intro pr hpr
            rcases mem_dictSet hpr with rfl | hm
            · refine ⟨?_, ?_, ?_⟩
              · split <;> split <;> simp [hv.1]
              · split <;> split <;> simp [hv.2.1]
              · split
                · split
                  · rename_i htr
                    intro st hst
                    simp only at hst
                    rcases List.mem_or_eq_of_mem_set hst with hmem | rfl
                    · exact hv.2.2 st hmem
                    · exact hlegal htr
                  · intro st hst
                    simp only at hst
                    exact hv.2.2 st hst
                · split
                  · rename_i htr
                    intro st hst
                    simp only at hst
                    rcases List.mem_or_eq_of_mem_set hst with hmem | rfl
                    · exact hv.2.2 st hmem
                    · exact hlegal htr
                  · intro st hst
                    exact hv.2.2 st hst
            · exact h pr hm

theorem deletePlan_ok_inv {s s2 : PlanningState} {pid : Option String}
    {out : String} (h : StateInv s)
    (hok : deletePlan s pid = .ok (s2, out)) : StateInv s2 := by
  simp only [deletePlan] at hok
  split at hok
  · exact Except.noConfusion hok
  · split at hok
    · exact Except.noConfusion hok
    · cases hok
      intro pr hpr
      exact h pr (mem_dictDel hpr)

theorem setActivePlan_ok_plans {s s2 : PlanningState} {pid : Option String}
    {out : String} (hok : setActivePlan s pid = .ok (s2, out)) :
    s2.plans = s.plans := by
  simp only [setActivePlan] at hok
  split at hok
  · exact Except.noConfusion hok
  · split at hok
    · exact Except.noConfusion hok
    · cases hok
      rfl

theorem getPlan_ok_state {s s2 : PlanningState} {pid : Option String}
    {out : String} (hok : getPlan s pid = .ok (s2, out)) : s2 = s := by
  simp only [getPlan] at hok
  split at hok
  · exact Except.noConfusion hok
  · split at hok
    · exact Except.noConfusion hok
    · cases hok
      rfl

theorem listPlans_ok_state {s s2 : PlanningState} {out : String}
    (hok : listPlans s = .ok (s2, out)) : s2 = s := by
  simp only [listPlans] at hok
  split at hok <;> cases hok <;> rfl

/-- The four status counts partition any status list whose entries are all
legal. -/
theorem count_legal_statuses (l : List String)
    (h : ∀ st ∈ l, isLegalStatus st) :
    countStatus l "completed" + countStatus l "in_progress" +
    countStatus l "blocked" + countStatus l "not_started" = l.length := by
  induction l with
  | nil => rfl
  | cons hd tl ih =>
    have hhd := h hd (by simp)
    have htl := ih (fun st hst => h st (List.mem_cons_of_mem _ hst))
    rcases hhd with h1 | h1 | h1 | h1 <;> subst h1 <;>
      simp [countStatus, List.filter_cons] at htl ⊢ <;> omega

/-- C5: every planning command preserves the plan invariant — parallel
lists of equal length and only the four legal statuses — and hence on every
reachable store the four status counts sum to the number of steps. -/
theorem planning_commands_preserve_invariant (s : PlanningState)
    (c : PCommand) (h : StateInv s) :
    StateInv (stateAfter s c) ∧
    ∀ pid plan, dictGet (stateAfter s c).plans pid = some plan →
      countStatus plan.step_statuses "completed" +
      countStatus plan.step_statuses "in_progress" +
      countStatus plan.step_statuses "blocked" +
      countStatus plan.step_statuses "not_started" = plan.steps.length := by
  have hinv : StateInv (stateAfter s c) := by
    unfold stateAfter
    cases hE : executePlanning s c with
    | error e => exact h
    | ok pr =>
      obtain ⟨s2, out⟩ := pr
      cases c with
      | create a b st => exact createPlan_ok_inv h hE
      | update a b st => exact updatePlan_ok_inv h hE
      | list =>
        rw [listPlans_ok_state hE]
        exact h
      | get a =>
        rw [getPlan_ok_state hE]
        exact h
      | set_active a =>
        intro pr hpr
        rw [setActivePlan_ok_plans hE] at hpr
        exact h pr hpr
      | mark_step a b c d => exact markStep_ok_inv h hE
      | delete a => exact deletePlan_ok_inv h hE
  refine ⟨hinv, ?_⟩
  intro pid plan hget
  have hv := hinv _ (dictGet_mem hget)
  exact (count_legal_statuses plan.step_statuses hv.2.2).trans hv.1

/-- Closed witness for C5: the empty state trivially satisfies the
invariant, and creating a plan preserves it. -/
theorem planning_commands_preserve_invariant_witness :
    StateInv (stateAfter {}
      (.create (some "p1") (some "Test") (some ["a", "b"]))) ∧
    ∀ pid plan, dictGet (stateAfter {}
        (.create (some "p1") (some "Test") (some ["a", "b"]))).plans pid
        = some plan →
      countStatus plan.step_statuses "completed" +
      countStatus plan.step_statuses "in_progress" +
      countStatus plan.step_statuses "blocked" +
      countStatus plan.step_statuses "not_started" = plan.steps.length :=
  planning_commands_preserve_invariant {}
    (.create (some "p1") (some "Test") (some ["a", "b"]))
    (fun pr hpr => absurd hpr (List.not_mem_nil pr))

/-! ## C10: update-step preservation -/

theorem buildStatusNotes_get? (os ost ont : List String) (j i : Nat)
    (l : List String) :
    (buildStatusNotes os ost ont j l).get? i
      = (l.get? i).map (fun step => updStatusNote os ost ont (j + i) step) := by
  induction l generalizing j i with
  | nil => simp [buildStatusNotes]
  | cons hd tl ih =>
    cases i with
    | zero => simp [buildStatusNotes]
    | succ i2 =>
      simp only [buildStatusNotes, List.get?_cons_succ]
      rw [ih (j + 1) i2]
      have he : j + 1 + i2 = j + (i2 + 1) := by omega
      rw [he]

theorem updatedPlan_steps (plan : Plan) (title : Option String)
    (steps : List String) (hsteps : steps ≠ []) :
    (updatedPlan plan title (some steps)).steps = steps := by
  have h2 : truthyList (some steps) = true := by simp [truthyList, hsteps]
  simp [updatedPlan, h2]

theorem updatedPlan_title (plan : Plan) (title : Option String)
    (steps : Option (List String)) :
    (updatedPlan plan title steps).title
      = if truthyStr title then title.getD "" else plan.title := by
  simp only [updatedPlan]
  split
  · split <;> rfl
  · split <;> rfl

theorem updatedPlan_getD (plan : Plan) (title : Option String)
    (steps : List String)
    (hlen1 : plan.step_statuses.length = plan.steps.length)
    (hsteps : steps ≠ []) (i : Nat) (hi : i < steps.length) :
    ((updatedPlan plan title (some steps)).step_statuses.getD i "",
     (updatedPlan plan title (some steps)).step_notes.getD i "")
      = if steps.get? i = plan.steps.get? i then
          (plan.step_statuses.getD i "", plan.step_notes.getD i "")
        else ("not_started", "") := by
  have h2 : truthyList (some steps) = true := by simp [truthyList, hsteps]
  have hb1 : (updatedPlan plan title (some steps)).step_statuses
      = (buildStatusNotes plan.steps plan.step_statuses plan.step_notes
          0 steps).map Prod.fst := by
    simp only [updatedPlan, h2, if_true]
    split <;> rfl
  have hb2 : (updatedPlan plan title (some steps)).step_notes
      = (buildStatusNotes plan.steps plan.step_statuses plan.step_notes
          0 steps).map Prod.snd := by
    simp only [updatedPlan, h2, if_true]
    split <;> rfl
  obtain ⟨stepi, hstep⟩ : ∃ v, steps.get? i = some v :=
    ⟨steps.get ⟨i, hi⟩, List.get?_eq_get hi⟩
  have hpair := buildStatusNotes_get? plan.steps plan.step_statuses
    plan.step_notes 0 i steps
  rw [hstep] at hpair
  simp only [Nat.zero_add, Option.map_some] at hpair
  rw [hb1, hb2]
  simp only [List.getD, List.get?_map, hpair]
  dsimp only [Option.map, Option.getD]
  unfold updStatusNote
  have hcond : (decide (i < plan.steps.length) &&
      (some stepi == plan.steps.get? i)) = true
      ↔ steps.get? i = plan.steps.get? i := by
    rw [hstep]
    constructor
    · intro hc
      rw [Bool.and_eq_true] at hc
      exact eq_of_beq hc.2
    · intro hc
      rw [Bool.and_eq_true]
      refine ⟨?_, beq_iff_eq.mpr hc⟩
      have hlt : i < plan.steps.length := by
        by_contra hge
        rw [List.get?_eq_none.mpr (Nat.le_of_not_lt hge)] at hc
        exact Option.noConfusion hc
      simp [hlt]
  cases hc : (decide (i < plan.steps.length) &&
      (some stepi == plan.steps.get? i)) with
  | true =>
    rw [if_pos (hcond.mp hc)]
    have hlt : i < plan.steps.length := by
      rw [Bool.and_eq_true] at hc
      simpa using hc.1
    have hlt2 : i < plan.step_statuses.length := by
      rw [hlen1]
      exact hlt
    simp only [hc, if_true]
    rw [Prod.mk.injEq]
    have hgd : ∀ (l : List String) (n : Nat) (d : String),
        l.getD n d = (l.get? n).getD d := fun _ _ _ => rfl
    refine ⟨?_, ?_⟩
    · rw [hgd, List.get?_eq_get hlt2]
      rfl
    · rw [hgd]
      cases plan.step_notes.get? i <;> rfl
  | false =>
    have hne : ¬steps.get? i = plan.steps.get? i := by
      intro hcc
      rw [hcond.mpr hcc] at hc
      exact Bool.noConfusion hc
    rw [if_neg hne]
    simp [hc]

/-- C10: updating a plan with a non-empty steps list replaces the step
list, keeps the status and notes of a step exactly when the new text equals the
old text at the same index, resets every other step to `not_started` with
empty notes, and replaces the title only when a non-empty title argument
is supplied. -/
theorem update_plan_preserves_matching_steps (s : PlanningState)
    (pid : String) (plan : Plan) (title : Option String)
    (steps : List String)
    (hpid : pid ≠ "") (hplan : dictGet s.plans pid = some plan)
    (hlen1 : plan.step_statuses.length = plan.steps.length)
    (hsteps : steps ≠ []) :
    execOk s (.update (some pid) title (some steps)) = true ∧
    ∃ plan2,
      dictGet (stateAfter s (.update (some pid) title (some steps))).plans pid
        = some plan2 ∧
      plan2.steps = steps ∧
      plan2.title = (if truthyStr title then title.getD "" else plan.title) ∧
      ∀ i, i < steps.length →
        (plan2.step_statuses.getD i "", plan2.step_notes.getD i "")
          = if steps.get? i = plan.steps.get? i then
              (plan.step_statuses.getD i "", plan.step_notes.getD i "")
            else ("not_started", "") := by
  have h1 : truthyStr (some pid) = true := by simp [truthyStr, hpid]
  have hE : executePlanning s (.update (some pid) title (some steps))
      = updatePlan s (some pid) title (some steps) := rfl
  cases hu : updatePlan s (some pid) title (some steps) with
  | error e =>
    exfalso
    simp [updatePlan, h1, hplan] at hu
  | ok pr =>
    obtain ⟨s2, out⟩ := pr
    have hsa : stateAfter s (.update (some pid) title (some steps)) = s2 := by
      unfold stateAfter
      rw [hE, hu]
    have hu2 := hu
    simp only [updatePlan, h1, if_true, Option.getD_some, hplan] at hu2
    cases hu2
    rw [hsa]
    refine ⟨by simp [execOk, hE, hu], updatedPlan plan title (some steps),
      ?_, updatedPlan_steps plan title steps hsteps,
      updatedPlan_title plan title (some steps),
      fun i hi => updatedPlan_getD plan title steps hlen1 hsteps i hi⟩
    rw [dictGet_dictSet]
    simp

/-- Closed witness for C10: updating the noted demo plan with steps
`["a","c"]` keeps the completed status and notes of step 0 and resets step 1. -/
theorem update_plan_preserves_matching_steps_witness :
    execOk demoNoted (.update (some "p1") (some "New") (some ["a", "c"]))
      = true ∧
    ∃ plan2,
      dictGet (stateAfter demoNoted
          (.update (some "p1") (some "New") (some ["a", "c"]))).plans "p1"
        = some plan2 ∧
      plan2.steps = ["a", "c"] ∧
      plan2.title = (if truthyStr (some "New") then (some "New").getD ""
        else (Plan.mk "p1" "Test" ["a", "b"] ["completed", "not_started"]
          ["n", ""]).title) ∧
      ∀ i, i < (["a", "c"] : List String).length →
        (plan2.step_statuses.getD i "", plan2.step_notes.getD i "")
          = if (["a", "c"] : List String).get? i
              = (Plan.mk "p1" "Test" ["a", "b"] ["completed", "not_started"]
                  ["n", ""]).steps.get? i then
              ((Plan.mk "p1" "Test" ["a", "b"] ["completed", "not_started"]
                  ["n", ""]).step_statuses.getD i "",
               (Plan.mk "p1" "Test" ["a", "b"] ["completed", "not_started"]
                  ["n", ""]).step_notes.getD i "")
            else ("not_started", "") :=
  update_plan_preserves_matching_steps demoNoted "p1"
    (Plan.mk "p1" "Test" ["a", "b"] ["completed", "not_started"] ["n", ""])
    (some "New") ["a", "c"] (by decide) (by rfl) (by decide) (by decide)

/-! ## C8: active-plan bookkeeping -/

/-- C8: a successful `create(plan_id=p)` stores the plan and makes `p` the
active plan; a successful `delete(plan_id=p)` removes the plan and clears
the active-plan id exactly when `p` was active, leaving it unchanged when a
non-active plan is deleted. -/
theorem planning_active_plan_create_delete (s : PlanningState)
    (pid title : String) (steps : List String)
    (s2 : PlanningState) (pid2 : String)
    (hpid : pid ≠ "") (hnew : dictGet s.plans pid = none)
    (htitle : title ≠ "") (hsteps : steps ≠ [])
    (hpid2 : pid2 ≠ "") (hstored : (dictGet s2.plans pid2).isSome = true)
    (hnodup : (s2.plans.map Prod.fst).Nodup) :
    execOk s (.create (some pid) (some title) (some steps)) = true ∧
    (stateAfter s (.create (some pid) (some title)
      (some steps))).current_plan_id = some pid ∧
    (dictGet (stateAfter s (.create (some pid) (some title)
      (some steps))).plans pid).isSome = true ∧
    execOk s2 (.delete (some pid2)) = true ∧
    dictGet (stateAfter s2 (.delete (some pid2))).plans pid2 = none ∧
    (stateAfter s2 (.delete (some pid2))).current_plan_id
      = (if s2.current_plan_id = some pid2 then none
        else s2.current_plan_id) := by
  have h1 : truthyStr (some pid) = true := by simp [truthyStr, hpid]
  have h2 : truthyStr (some title) = true := by simp [truthyStr, htitle]
  have h3 : truthyList (some steps) = true := by simp [truthyList, hsteps]
  have h4 : truthyStr (some pid2) = true := by simp [truthyStr, hpid2]
  have hE1 : executePlanning s (.create (some pid) (some title) (some steps))
      = createPlan s (some pid) (some title) (some steps) := rfl
  have hE2 : executePlanning s2 (.delete (some pid2))
      = deletePlan s2 (some pid2) := rfl
  obtain ⟨plan2, hplan2⟩ := Option.isSome_iff_exists.mp hstored
  have hc : createPlan s (some pid) (some title) (some steps)
      = .ok (PlanningState.mk (dictSet s.plans pid
          (Plan.mk pid title steps
            (List.replicate steps.length "not_started")
            (List.replicate steps.length ""))) (some pid),
        "Plan created successfully with ID: " ++ pid ++ "\n\n" ++
          formatPlan (Plan.mk pid title steps
            (List.replicate steps.length "not_started")
            (List.replicate steps.length ""))) := by
    simp [createPlan, h1, h2, h3, hnew]
  have hd : deletePlan s2 (some pid2)
      = .ok (PlanningState.mk (dictDel s2.plans pid2)
          (if s2.current_plan_id == some pid2 then none
            else s2.current_plan_id),
        "Plan \x27" ++ pid2 ++ "\x27 has been deleted.") := by
    simp [deletePlan, h4, hplan2]
  refine ⟨?_, ?_, ?_, ?_, ?_, ?_⟩
  · simp [execOk, hE1, hc]
  · simp [stateAfter, hE1, hc]
  · simp only [stateAfter, hE1, hc]
    rw [dictGet_dictSet]
    simp
  · simp [execOk, hE2, hd]
  · simp only [stateAfter, hE2, hd]
    exact dictGet_dictDel_self hnodup
  · simp only [stateAfter, hE2, hd]
    by_cases hcur : s2.current_plan_id = some pid2
    · simp [hcur]
    · have : (s2.current_plan_id == some pid2) = false := by
        simp [hcur]
      simp [this, hcur]

/-- Closed witness for C8: creating `p1` in the empty state and then
deleting it from the resulting state. -/
theorem planning_active_plan_create_delete_witness :
    execOk {} (.create (some "p1") (some "Test") (some ["a", "b"])) = true ∧
    (stateAfter {} (.create (some "p1") (some "Test")
      (some ["a", "b"]))).current_plan_id = some "p1" ∧
    (dictGet (stateAfter {} (.create (some "p1") (some "Test")
      (some ["a", "b"]))).plans "p1").isSome = true ∧
    execOk demoCreated (.delete (some "p1")) = true ∧
    dictGet (stateAfter demoCreated (.delete (some "p1"))).plans "p1"
      = none ∧
    (stateAfter demoCreated (.delete (some "p1"))).current_plan_id
      = (if demoCreated.current_plan_id = some "p1" then none
        else demoCreated.current_plan_id) :=
  planning_active_plan_create_delete {} "p1" "Test" ["a", "b"] demoCreated
    "p1" (by decide) (by rfl) (by decide) (by decide) (by decide) (by rfl)
    (by decide)

end OpenManus
